import Mathlib

/-!
Verification development for the `uplc` crate core: the Untyped Plutus Core
term model (`src/crates/uplc/src/ast.rs`), the builtin registry
(`src/crates/uplc/src/builtins.rs`), and the binder-representation
converter. The converter itself (`debruijn.rs`) is not among the provided
sources, only its callers in `ast.rs`; its operations are modelled from the
specification, as marked on each definition.
-/

namespace Uplc

/-! ## Builtin registry (`builtins.rs`) -/

/-- All the possible builtin functions in Untyped Plutus Core.
Mirrors `enum DefaultFunction` in `builtins.rs` (54 variants). -/
inductive DefaultFunction : Type where
  | AddInteger
  | SubtractInteger
  | MultiplyInteger
  | DivideInteger
  | QuotientInteger
  | RemainderInteger
  | ModInteger
  | EqualsInteger
  | LessThanInteger
  | LessThanEqualsInteger
  | AppendByteString
  | ConsByteString
  | SliceByteString
  | LengthOfByteString
  | IndexByteString
  | EqualsByteString
  | LessThanByteString
  | LessThanEqualsByteString
  | Sha2_256
  | Sha3_256
  | Blake2b_256
  | VerifySignature
  | VerifyEcdsaSecp256k1Signature
  | VerifySchnorrSecp256k1Signature
  | AppendString
  | EqualsString
  | EncodeUtf8
  | DecodeUtf8
  | IfThenElse
  | ChooseUnit
  | Trace
  | FstPair
  | SndPair
  | ChooseList
  | MkCons
  | HeadList
  | TailList
  | NullList
  | ChooseData
  | ConstrData
  | MapData
  | ListData
  | IData
  | BData
  | UnConstrData
  | UnMapData
  | UnListData
  | UnIData
  | UnBData
  | EqualsData
  | SerialiseData
  | MkPairData
  | MkNilData
  | MkNilPairData
  deriving DecidableEq, Repr

/-- The explicit numeric discriminant of each variant (`#[repr(u8)]` with
explicit values in `builtins.rs`); this is what `DefaultFunction::X as u8`
evaluates to. -/
def DefaultFunction.toTag : DefaultFunction → Nat
  | .AddInteger => 0
  | .SubtractInteger => 1
  | .MultiplyInteger => 2
  | .DivideInteger => 3
  | .QuotientInteger => 4
  | .RemainderInteger => 5
  | .ModInteger => 6
  | .EqualsInteger => 7
  | .LessThanInteger => 8
  | .LessThanEqualsInteger => 9
  | .AppendByteString => 10
  | .ConsByteString => 11
  | .SliceByteString => 12
  | .LengthOfByteString => 13
  | .IndexByteString => 14
  | .EqualsByteString => 15
  | .LessThanByteString => 16
  | .LessThanEqualsByteString => 17
  | .Sha2_256 => 18
  | .Sha3_256 => 19
  | .Blake2b_256 => 20
  | .VerifySignature => 21
  | .VerifyEcdsaSecp256k1Signature => 52
  | .VerifySchnorrSecp256k1Signature => 53
  | .AppendString => 22
  | .EqualsString => 23
  | .EncodeUtf8 => 24
  | .DecodeUtf8 => 25
  | .IfThenElse => 26
  | .ChooseUnit => 27
  | .Trace => 28
  | .FstPair => 29
  | .SndPair => 30
  | .ChooseList => 31
  | .MkCons => 32
  | .HeadList => 33
  | .TailList => 34
  | .NullList => 35
  | .ChooseData => 36
  | .ConstrData => 37
  | .MapData => 38
  | .ListData => 39
  | .IData => 40
  | .BData => 41
  | .UnConstrData => 42
  | .UnMapData => 43
  | .UnListData => 44
  | .UnIData => 45
  | .UnBData => 46
  | .EqualsData => 47
  | .SerialiseData => 51
  | .MkPairData => 48
  | .MkNilData => 49
  | .MkNilPairData => 50

/-- The decode error type: `flat::de::Error::Message(String)` as used by
`TryFrom<u8> for DefaultFunction`. -/
inductive DeError : Type where
  | Message : String → DeError
  deriving DecidableEq, Repr

/-- Decoding of a numeric tag, mirroring `impl TryFrom<u8> for
DefaultFunction` in `builtins.rs`: a sequence of guards comparing the byte
against each variant discriminant (in the source declaration order), with a
fallthrough error naming the offending value. -/
def DefaultFunction.tryFromTag (v : Nat) : Except DeError DefaultFunction :=
  if v = DefaultFunction.AddInteger.toTag then .ok .AddInteger
  else if v = DefaultFunction.SubtractInteger.toTag then .ok .SubtractInteger
  else if v = DefaultFunction.MultiplyInteger.toTag then .ok .MultiplyInteger
  else if v = DefaultFunction.DivideInteger.toTag then .ok .DivideInteger
  else if v = DefaultFunction.QuotientInteger.toTag then .ok .QuotientInteger
  else if v = DefaultFunction.RemainderInteger.toTag then .ok .RemainderInteger
  else if v = DefaultFunction.ModInteger.toTag then .ok .ModInteger
  else if v = DefaultFunction.EqualsInteger.toTag then .ok .EqualsInteger
  else if v = DefaultFunction.LessThanInteger.toTag then .ok .LessThanInteger
  else if v = DefaultFunction.LessThanEqualsInteger.toTag then .ok .LessThanEqualsInteger
  else if v = DefaultFunction.AppendByteString.toTag then .ok .AppendByteString
  else if v = DefaultFunction.ConsByteString.toTag then .ok .ConsByteString
  else if v = DefaultFunction.SliceByteString.toTag then .ok .SliceByteString
  else if v = DefaultFunction.LengthOfByteString.toTag then .ok .LengthOfByteString
  else if v = DefaultFunction.IndexByteString.toTag then .ok .IndexByteString
  else if v = DefaultFunction.EqualsByteString.toTag then .ok .EqualsByteString
  else if v = DefaultFunction.LessThanByteString.toTag then .ok .LessThanByteString
  else if v = DefaultFunction.LessThanEqualsByteString.toTag then .ok .LessThanEqualsByteString
  else if v = DefaultFunction.Sha2_256.toTag then .ok .Sha2_256
  else if v = DefaultFunction.Sha3_256.toTag then .ok .Sha3_256
  else if v = DefaultFunction.Blake2b_256.toTag then .ok .Blake2b_256
  else if v = DefaultFunction.VerifySignature.toTag then .ok .VerifySignature
  else if v = DefaultFunction.VerifyEcdsaSecp256k1Signature.toTag then .ok .VerifyEcdsaSecp256k1Signature
  else if v = DefaultFunction.VerifySchnorrSecp256k1Signature.toTag then .ok .VerifySchnorrSecp256k1Signature
  else if v = DefaultFunction.AppendString.toTag then .ok .AppendString
  else if v = DefaultFunction.EqualsString.toTag then .ok .EqualsString
  else if v = DefaultFunction.EncodeUtf8.toTag then .ok .EncodeUtf8
  else if v = DefaultFunction.DecodeUtf8.toTag then .ok .DecodeUtf8
  else if v = DefaultFunction.IfThenElse.toTag then .ok .IfThenElse
  else if v = DefaultFunction.ChooseUnit.toTag then .ok .ChooseUnit
  else if v = DefaultFunction.Trace.toTag then .ok .Trace
  else if v = DefaultFunction.FstPair.toTag then .ok .FstPair
  else if v = DefaultFunction.SndPair.toTag then .ok .SndPair
  else if v = DefaultFunction.ChooseList.toTag then .ok .ChooseList
  else if v = DefaultFunction.MkCons.toTag then .ok .MkCons
  else if v = DefaultFunction.HeadList.toTag then .ok .HeadList
  else if v = DefaultFunction.TailList.toTag then .ok .TailList
  else if v = DefaultFunction.NullList.toTag then .ok .NullList
  else if v = DefaultFunction.ChooseData.toTag then .ok .ChooseData
  else if v = DefaultFunction.ConstrData.toTag then .ok .ConstrData
  else if v = DefaultFunction.MapData.toTag then .ok .MapData
  else if v = DefaultFunction.ListData.toTag then .ok .ListData
  else if v = DefaultFunction.IData.toTag then .ok .IData
  else if v = DefaultFunction.BData.toTag then .ok .BData
  else if v = DefaultFunction.UnConstrData.toTag then .ok .UnConstrData
  else if v = DefaultFunction.UnMapData.toTag then .ok .UnMapData
  else if v = DefaultFunction.UnListData.toTag then .ok .UnListData
  else if v = DefaultFunction.UnIData.toTag then .ok .UnIData
  else if v = DefaultFunction.UnBData.toTag then .ok .UnBData
  else if v = DefaultFunction.EqualsData.toTag then .ok .EqualsData
  else if v = DefaultFunction.SerialiseData.toTag then .ok .SerialiseData
  else if v = DefaultFunction.MkPairData.toTag then .ok .MkPairData
  else if v = DefaultFunction.MkNilData.toTag then .ok .MkNilData
  else if v = DefaultFunction.MkNilPairData.toTag then .ok .MkNilPairData
  else .error (.Message ("Default Function not found - " ++ Nat.repr v))

/-! ## Textual spellings (strum `EnumString` with `serialize_all = "camelCase"`) -/

/-- Word-scanning mode of the heck case-conversion algorithm (the `WordMode`
of heck 0.4, which strum_macros uses to expand `serialize_all`): tracks the
case of the last cased character seen in the current word; digits leave the
mode unchanged. -/
inductive WordMode : Type where
  | boundary
  | lower
  | upper
  deriving DecidableEq

/-- Split one maximal alphanumeric chunk of an identifier into words,
following the transform loop of heck: a word ends after a character whose
running mode is lowercase when the next character is uppercase, and a word
starts at an uppercase character that is preceded (mode-wise) by uppercase
and followed by lowercase. -/
def camelWordsGo : WordMode → List Char → List Char → List (List Char)
  | _, acc, [] => [acc.reverse]
  | mode, acc, c :: rest =>
    match rest with
    | [] => [(c :: acc).reverse]
    | next :: _ =>
      let nextMode : WordMode :=
        if c.isLower then .lower else if c.isUpper then .upper else mode
      if nextMode = .lower ∧ next.isUpper then
        (c :: acc).reverse :: camelWordsGo .boundary [] rest
      else if mode = .upper ∧ c.isUpper ∧ next.isLower then
        acc.reverse :: camelWordsGo .boundary [c] rest
      else
        camelWordsGo nextMode (c :: acc) rest

/-- Words of an identifier: split on non-alphanumeric characters, then split
each chunk at camel-case boundaries. -/
def identWords (s : String) : List (List Char) :=
  ((s.toList.splitOnP (fun c => !c.isAlphanum)).map
    (fun chunk =>
      match chunk with
      | [] => ([] : List (List Char))
      | _ => camelWordsGo .boundary [] chunk)).flatten

/-- Capitalize a word as heck does: first character uppercased, the rest
lowercased. -/
def capitalizeWord : List Char → List Char
  | [] => []
  | c :: cs => c.toUpper :: cs.map Char.toLower

/-- The strum `camelCase` case style applied to an identifier: heck upper
camel case (each word capitalized, concatenated), then the first character
lowercased. This is what `#[strum(serialize_all = "camelCase")]` computes
for each variant without an explicit `serialize` override. -/
def lowerCamelCase (s : String) : String :=
  match ((identWords s).map capitalizeWord).flatten with
  | [] => ""
  | c :: cs => String.mk (c.toLower :: cs)

/-- The Rust identifier of each `DefaultFunction` variant, as written in
`builtins.rs`. -/
def DefaultFunction.variantName : DefaultFunction → String
  | .AddInteger => "AddInteger"
  | .SubtractInteger => "SubtractInteger"
  | .MultiplyInteger => "MultiplyInteger"
  | .DivideInteger => "DivideInteger"
  | .QuotientInteger => "QuotientInteger"
  | .RemainderInteger => "RemainderInteger"
  | .ModInteger => "ModInteger"
  | .EqualsInteger => "EqualsInteger"
  | .LessThanInteger => "LessThanInteger"
  | .LessThanEqualsInteger => "LessThanEqualsInteger"
  | .AppendByteString => "AppendByteString"
  | .ConsByteString => "ConsByteString"
  | .SliceByteString => "SliceByteString"
  | .LengthOfByteString => "LengthOfByteString"
  | .IndexByteString => "IndexByteString"
  | .EqualsByteString => "EqualsByteString"
  | .LessThanByteString => "LessThanByteString"
  | .LessThanEqualsByteString => "LessThanEqualsByteString"
  | .Sha2_256 => "Sha2_256"
  | .Sha3_256 => "Sha3_256"
  | .Blake2b_256 => "Blake2b_256"
  | .VerifySignature => "VerifySignature"
  | .VerifyEcdsaSecp256k1Signature => "VerifyEcdsaSecp256k1Signature"
  | .VerifySchnorrSecp256k1Signature => "VerifySchnorrSecp256k1Signature"
  | .AppendString => "AppendString"
  | .EqualsString => "EqualsString"
  | .EncodeUtf8 => "EncodeUtf8"
  | .DecodeUtf8 => "DecodeUtf8"
  | .IfThenElse => "IfThenElse"
  | .ChooseUnit => "ChooseUnit"
  | .Trace => "Trace"
  | .FstPair => "FstPair"
  | .SndPair => "SndPair"
  | .ChooseList => "ChooseList"
  | .MkCons => "MkCons"
  | .HeadList => "HeadList"
  | .TailList => "TailList"
  | .NullList => "NullList"
  | .ChooseData => "ChooseData"
  | .ConstrData => "ConstrData"
  | .MapData => "MapData"
  | .ListData => "ListData"
  | .IData => "IData"
  | .BData => "BData"
  | .UnConstrData => "UnConstrData"
  | .UnMapData => "UnMapData"
  | .UnListData => "UnListData"
  | .UnIData => "UnIData"
  | .UnBData => "UnBData"
  | .EqualsData => "EqualsData"
  | .SerialiseData => "SerialiseData"
  | .MkPairData => "MkPairData"
  | .MkNilData => "MkNilData"
  | .MkNilPairData => "MkNilPairData"

/-- Canonical textual spelling of a builtin, following the attributes on
`DefaultFunction` in `builtins.rs`: the variant `Sha2_256` carries an
explicit `#[strum(serialize = "sha2_256")]` override, every other variant is
spelled by the `serialize_all = "camelCase"` rule. -/
def DefaultFunction.spelling : DefaultFunction → String
  | .Sha2_256 => "sha2_256"
  | f => lowerCamelCase f.variantName

example : lowerCamelCase "AddInteger" = "addInteger" := by decide
example : lowerCamelCase "IfThenElse" = "ifThenElse" := by decide
example : lowerCamelCase "UnIData" = "unIData" := by decide
example : lowerCamelCase "Sha2_256" = "sha2256" := by decide
example : lowerCamelCase "Blake2b_256" = "blake2b256" := by decide
example : lowerCamelCase "VerifyEcdsaSecp256k1Signature" = "verifyEcdsaSecp256k1Signature" := by decide

/-- C5: for every numeric tag t in 0..=53, decoding t succeeds and casting
the decoded identity back to its numeric tag yields exactly t, and the
out-of-sequence assignments 48..53 are reproduced. -/
theorem builtin_tag_roundtrip :
    (∀ t : Nat, t ≤ 53 →
      Except.map DefaultFunction.toTag (DefaultFunction.tryFromTag t) = .ok t) ∧
    DefaultFunction.MkPairData.toTag = 48 ∧
    DefaultFunction.MkNilData.toTag = 49 ∧
    DefaultFunction.MkNilPairData.toTag = 50 ∧
    DefaultFunction.SerialiseData.toTag = 51 ∧
    DefaultFunction.VerifyEcdsaSecp256k1Signature.toTag = 52 ∧
    DefaultFunction.VerifySchnorrSecp256k1Signature.toTag = 53 := by
  refine ⟨?_, rfl, rfl, rfl, rfl, rfl, rfl⟩
  intro t ht
  interval_cases t <;> rfl

/-- Witness for C5 at the concrete tag 48. -/
theorem builtin_tag_roundtrip_witness :
    Except.map DefaultFunction.toTag (DefaultFunction.tryFromTag 48) = .ok 48 :=
  builtin_tag_roundtrip.1 48 (by decide)

/-- C6: every tag outside 0..=53 (in the u8 domain) fails to decode with an
unknown-builtin-tag error naming the offending byte; no default identity is
substituted. -/
theorem builtin_tag_unknown :
    ∀ t : Nat, 54 ≤ t → t ≤ 255 →
      DefaultFunction.tryFromTag t =
        .error (.Message ("Default Function not found - " ++ Nat.repr t)) := by
  intro t h1 h2
  interval_cases t <;> rfl

/-- Witness for C6 at the concrete tag 54. -/
theorem builtin_tag_unknown_witness :
    DefaultFunction.tryFromTag 54 =
      .error (.Message "Default Function not found - 54") :=
  builtin_tag_unknown 54 (by decide) (by decide)

/-- C7: the canonical spelling of every builtin is the lower-camel-case
form of its identity name, with exactly one exception, Sha2_256, which
spells as the non-camel form sha2_256. -/
theorem builtin_spelling_camel :
    DefaultFunction.Sha2_256.spelling = "sha2_256" ∧
    lowerCamelCase DefaultFunction.Sha2_256.variantName ≠ "sha2_256" ∧
    (∀ f : DefaultFunction, f ≠ .Sha2_256 →
      f.spelling = lowerCamelCase f.variantName) ∧
    DefaultFunction.AddInteger.spelling = "addInteger" ∧
    DefaultFunction.IfThenElse.spelling = "ifThenElse" ∧
    DefaultFunction.UnIData.spelling = "unIData" ∧
    DefaultFunction.VerifyEcdsaSecp256k1Signature.spelling
      = "verifyEcdsaSecp256k1Signature" := by
  refine ⟨rfl, by decide, ?_, by decide, by decide, by decide, by decide⟩
  intro f hf
  cases f <;> first | rfl | exact absurd rfl hf

/-- Witness for C7 at the concrete identity AddInteger. -/
theorem builtin_spelling_camel_witness :
    DefaultFunction.AddInteger.spelling
      = lowerCamelCase DefaultFunction.AddInteger.variantName :=
  builtin_spelling_camel.2.2.1 DefaultFunction.AddInteger (by decide)

/-! ## Term and program model (`ast.rs`) -/

/-- A unique id used for string interning (`pub struct Unique(isize)`). -/
structure Unique : Type where
  inner : Int
  deriving DecidableEq, Repr

/-- A Name containing its parsed textual representation and a unique id
from string interning (`pub struct Name`). -/
structure Name : Type where
  text : String
  unique : Unique
  deriving DecidableEq, Repr

/-- Represents a debruijn index (`pub struct DeBruijn(usize)`). -/
structure DeBruijn : Type where
  inner : Nat
  deriving DecidableEq, Repr

/-- Similar to Name but for Debruijn indices (`pub struct NamedDeBruijn`). -/
structure NamedDeBruijn : Type where
  text : String
  index : DeBruijn
  deriving DecidableEq, Repr

/-- A transparent wrapper around NamedDeBruijn used when decoding on-chain
programs (`pub struct FakeNamedDeBruijn(NamedDeBruijn)`). -/
structure FakeNamedDeBruijn : Type where
  inner : NamedDeBruijn
  deriving DecidableEq, Repr

/-- `impl From<NamedDeBruijn> for DeBruijn` in `ast.rs`: keep the index. -/
def NamedDeBruijn.toDeBruijn (n : NamedDeBruijn) : DeBruijn :=
  n.index

/-- `impl From<DeBruijn> for NamedDeBruijn` in `ast.rs`: inject the fake
name "i" (taken from the Plutus code base). -/
def DeBruijn.toNamedDeBruijn (index : DeBruijn) : NamedDeBruijn :=
  { text := "i", index := index }

/-- `impl From<DeBruijn> for FakeNamedDeBruijn` in `ast.rs`: wrap the
conversion of the index into a NamedDeBruijn. -/
def DeBruijn.toFakeNamedDeBruijn (d : DeBruijn) : FakeNamedDeBruijn :=
  ⟨d.toNamedDeBruijn⟩

/-- `impl From<FakeNamedDeBruijn> for DeBruijn` in `ast.rs`: unwrap, then
keep the index. -/
def FakeNamedDeBruijn.toDeBruijn (f : FakeNamedDeBruijn) : DeBruijn :=
  f.inner.toDeBruijn

/-- `impl From<FakeNamedDeBruijn> for NamedDeBruijn` in `ast.rs`: unwrap. -/
def FakeNamedDeBruijn.toNamedDeBruijn (f : FakeNamedDeBruijn) : NamedDeBruijn :=
  f.inner

/-- `impl From<NamedDeBruijn> for FakeNamedDeBruijn` in `ast.rs`: wrap. -/
def NamedDeBruijn.toFakeNamedDeBruijn (n : NamedDeBruijn) : FakeNamedDeBruijn :=
  ⟨n⟩

/-- A container for the various constants available in Untyped Plutus Core
(`enum Constant` in `ast.rs`). -/
inductive Constant : Type where
  | Integer : Int → Constant
  | ByteString : List Nat → Constant
  | String : String → Constant
  | Char : Char → Constant
  | Unit : Constant
  | Bool : Bool → Constant
  deriving DecidableEq, Repr

/-- A term in Untyped Plutus Core, generic over the binder representation
(`enum Term<T>` in `ast.rs`). -/
inductive Term (T : Type) : Type where
  | Var : T → Term T
  | Delay : Term T → Term T
  | Lambda : T → Term T → Term T
  | Apply : Term T → Term T → Term T
  | Constant : Constant → Term T
  | Force : Term T → Term T
  | Error : Term T
  | Builtin : DefaultFunction → Term T
  deriving DecidableEq, Repr

/-- A program in Untyped Plutus Core: a version triple and a term
(`struct Program<T>` in `ast.rs`). -/
structure Program (T : Type) : Type where
  version : Nat × Nat × Nat
  term : Term T
  deriving DecidableEq, Repr

/-! ## Converter

The converter lives in the `debruijn` module, which is not among the
provided sources; only its callers in `ast.rs` are. Its operations are
modelled from the specification, section 4.4. -/

/-- Modelled from the spec: the `debruijn::Error` scope-error type of the
missing converter module. The spec (sections 4.4 and 7) gives exactly one
failure taxonomy entry for conversions, the unbound-variable error, which
carries the unresolved name text and Unique in the Name-to-index direction
and the meaningless positional index in the index-to-Name direction. -/
inductive DebruijnError : Type where
  | FreeUnique : Name → DebruijnError
  | FreeIndex : DeBruijn → DebruijnError
  deriving DecidableEq, Repr

/-- Position of the first occurrence of an element in a list, scanning from
the head (the top of a scope stack). -/
def firstIdx {α : Type} [DecidableEq α] (x : α) : List α → Option Nat
  | [] => none
  | y :: ys => if y = x then some 0 else (firstIdx x ys).map (fun k => k + 1)

/-- Modelled from the spec: the scope-tracking body of
`Converter::name_to_named_debruijn` (direction 1). The scope stack holds the
Uniques of the currently open binders, innermost first; a Lambda pushes its
parameter Unique around the body; a Var is resolved to the 1-based distance
from the top of the stack to the first matching Unique, keeping its text,
or fails with the unbound-variable error carrying the Name; a Lambda binder
is re-tagged with its text and the reserved index 0; the remaining node
shapes recurse with the stack unchanged. -/
def nameToNamedDebruijnGo (s : List Unique) :
    Term Name → Except DebruijnError (Term NamedDeBruijn)
  | .Var n =>
    match firstIdx n.unique s with
    | some j => .ok (.Var { text := n.text, index := ⟨j + 1⟩ })
    | none => .error (.FreeUnique n)
  | .Delay t =>
    match nameToNamedDebruijnGo s t with
    | .ok t2 => .ok (.Delay t2)
    | .error e => .error e
  | .Lambda p b =>
    match nameToNamedDebruijnGo (p.unique :: s) b with
    | .ok b2 => .ok (.Lambda { text := p.text, index := ⟨0⟩ } b2)
    | .error e => .error e
  | .Apply f a =>
    match nameToNamedDebruijnGo s f with
    | .ok f2 =>
      match nameToNamedDebruijnGo s a with
      | .ok a2 => .ok (.Apply f2 a2)
      | .error e => .error e
    | .error e => .error e
  | .Constant c => .ok (.Constant c)
  | .Force t =>
    match nameToNamedDebruijnGo s t with
    | .ok t2 => .ok (.Force t2)
    | .error e => .error e
  | .Error => .ok .Error
  | .Builtin b => .ok (.Builtin b)

/-- Modelled from the spec: the scope-tracking body of
`Converter::name_to_debruijn` (direction 2), identical to direction 1 except
that the textual label is dropped at every re-tagged node. -/
def nameToDebruijnGo (s : List Unique) :
    Term Name → Except DebruijnError (Term DeBruijn)
  | .Var n =>
    match firstIdx n.unique s with
    | some j => .ok (.Var ⟨j + 1⟩)
    | none => .error (.FreeUnique n)
  | .Delay t =>
    match nameToDebruijnGo s t with
    | .ok t2 => .ok (.Delay t2)
    | .error e => .error e
  | .Lambda p b =>
    match nameToDebruijnGo (p.unique :: s) b with
    | .ok b2 => .ok (.Lambda ⟨0⟩ b2)
    | .error e => .error e
  | .Apply f a =>
    match nameToDebruijnGo s f with
    | .ok f2 =>
      match nameToDebruijnGo s a with
      | .ok a2 => .ok (.Apply f2 a2)
      | .error e => .error e
    | .error e => .error e
  | .Constant c => .ok (.Constant c)
  | .Force t =>
    match nameToDebruijnGo s t with
    | .ok t2 => .ok (.Force t2)
    | .error e => .error e
  | .Error => .ok .Error
  | .Builtin b => .ok (.Builtin b)

/-- Modelled from the spec: the scope-tracking body of
`Converter::named_debruijn_to_name` (direction 3). The scope stack holds the
Names of the currently open binders, innermost first; a Lambda keeps its
text and is assigned a fresh Unique minted by the threaded allocator
counter; a Var with index i succeeds exactly when 1 <= i <= stack depth and
the referenced binder Name is read off the stack at that depth, otherwise
it fails with the unbound-variable error carrying the index. -/
def namedDebruijnToNameGo (fresh : Int) (s : List Name) :
    Term NamedDeBruijn → Except DebruijnError (Term Name × Int)
  | .Var nd =>
    if nd.index.inner = 0 then .error (.FreeIndex nd.index)
    else
      match s[nd.index.inner - 1]? with
      | some nm => .ok (.Var nm, fresh)
      | none => .error (.FreeIndex nd.index)
  | .Delay t =>
    match namedDebruijnToNameGo fresh s t with
    | .ok (t2, fr) => .ok (.Delay t2, fr)
    | .error e => .error e
  | .Lambda p b =>
    match namedDebruijnToNameGo (fresh + 1) ({ text := p.text, unique := ⟨fresh⟩ } :: s) b with
    | .ok (b2, fr) => .ok (.Lambda { text := p.text, unique := ⟨fresh⟩ } b2, fr)
    | .error e => .error e
  | .Apply f a =>
    match namedDebruijnToNameGo fresh s f with
    | .ok (f2, fr1) =>
      match namedDebruijnToNameGo fr1 s a with
      | .ok (a2, fr2) => .ok (.Apply f2 a2, fr2)
      | .error e => .error e
    | .error e => .error e
  | .Constant c => .ok (.Constant c, fresh)
  | .Force t =>
    match namedDebruijnToNameGo fresh s t with
    | .ok (t2, fr) => .ok (.Force t2, fr)
    | .error e => .error e
  | .Error => .ok (.Error, fresh)
  | .Builtin b => .ok (.Builtin b, fresh)

/-- Modelled from the spec: the scope-tracking body of
`Converter::debruijn_to_name` (direction 6), identical to direction 3 except
that a Lambda must also fabricate its text, for which the placeholder "i"
is used (the same placeholder the per-node conversion in `ast.rs` uses). -/
def debruijnToNameGo (fresh : Int) (s : List Name) :
    Term DeBruijn → Except DebruijnError (Term Name × Int)
  | .Var d =>
    if d.inner = 0 then .error (.FreeIndex d)
    else
      match s[d.inner - 1]? with
      | some nm => .ok (.Var nm, fresh)
      | none => .error (.FreeIndex d)
  | .Delay t =>
    match debruijnToNameGo fresh s t with
    | .ok (t2, fr) => .ok (.Delay t2, fr)
    | .error e => .error e
  | .Lambda _ b =>
    match debruijnToNameGo (fresh + 1) ({ text := "i", unique := ⟨fresh⟩ } :: s) b with
    | .ok (b2, fr) => .ok (.Lambda { text := "i", unique := ⟨fresh⟩ } b2, fr)
    | .error e => .error e
  | .Apply f a =>
    match debruijnToNameGo fresh s f with
    | .ok (f2, fr1) =>
      match debruijnToNameGo fr1 s a with
      | .ok (a2, fr2) => .ok (.Apply f2 a2, fr2)
      | .error e => .error e
    | .error e => .error e
  | .Constant c => .ok (.Constant c, fresh)
  | .Force t =>
    match debruijnToNameGo fresh s t with
    | .ok (t2, fr) => .ok (.Force t2, fr)
    | .error e => .error e
  | .Error => .ok (.Error, fresh)
  | .Builtin b => .ok (.Builtin b, fresh)

/-- Modelled from the spec: the structure-only directions (4, 5 and 7) are a
pure per-node re-tagging applied recursively; this is the shared recursion,
instantiated below with the per-node conversions that are present in
`ast.rs`. -/
def termMap {α β : Type} (f : α → β) : Term α → Term β
  | .Var x => .Var (f x)
  | .Delay t => .Delay (termMap f t)
  | .Lambda p b => .Lambda (f p) (termMap f b)
  | .Apply g a => .Apply (termMap f g) (termMap f a)
  | .Constant c => .Constant c
  | .Force t => .Force (termMap f t)
  | .Error => .Error
  | .Builtin b => .Builtin b

/-- `impl TryFrom<Term<Name>> for Term<NamedDeBruijn>` in `ast.rs`: run the
conversion on a fresh converter, whose scope stack starts empty. -/
def termNameToNamedDebruijn (t : Term Name) : Except DebruijnError (Term NamedDeBruijn) :=
  nameToNamedDebruijnGo [] t

/-- `impl TryFrom<Term<Name>> for Term<DeBruijn>` in `ast.rs`. -/
def termNameToDebruijn (t : Term Name) : Except DebruijnError (Term DeBruijn) :=
  nameToDebruijnGo [] t

/-- `impl TryFrom<Term<NamedDeBruijn>> for Term<Name>` in `ast.rs`: run the
conversion on a fresh converter, whose scope stack starts empty and whose
unique allocator starts at 0. -/
def termNamedDebruijnToName (t : Term NamedDeBruijn) : Except DebruijnError (Term Name) :=
  match namedDebruijnToNameGo 0 [] t with
  | .ok (t2, _) => .ok t2
  | .error e => .error e

/-- `impl TryFrom<Term<DeBruijn>> for Term<Name>` in `ast.rs`. -/
def termDebruijnToName (t : Term DeBruijn) : Except DebruijnError (Term Name) :=
  match debruijnToNameGo 0 [] t with
  | .ok (t2, _) => .ok t2
  | .error e => .error e

/-- `impl From<Term<NamedDeBruijn>> for Term<DeBruijn>` in `ast.rs`
(direction 4, structure-only). -/
def termNamedDebruijnToDebruijn : Term NamedDeBruijn → Term DeBruijn :=
  termMap NamedDeBruijn.toDeBruijn

/-- `impl From<Term<DeBruijn>> for Term<NamedDeBruijn>` in `ast.rs`
(direction 5, structure-only, attaches the placeholder text). -/
def termDebruijnToNamedDebruijn : Term DeBruijn → Term NamedDeBruijn :=
  termMap DeBruijn.toNamedDeBruijn

/-- `impl From<Term<NamedDeBruijn>> for Term<FakeNamedDeBruijn>` in
`ast.rs` (direction 7, wrap). -/
def termNamedDebruijnToFake : Term NamedDeBruijn → Term FakeNamedDeBruijn :=
  termMap NamedDeBruijn.toFakeNamedDeBruijn

/-- `impl From<Term<FakeNamedDeBruijn>> for Term<NamedDeBruijn>` in
`ast.rs` (direction 7, unwrap). -/
def termFakeToNamedDebruijn : Term FakeNamedDeBruijn → Term NamedDeBruijn :=
  termMap FakeNamedDeBruijn.toNamedDeBruijn

/-! ## Structure-only round trips (claims about directions 4, 5 and 7) -/

/-- Mapping a mapped term maps the composition. -/
theorem termMap_termMap {α β γ : Type} (f : β → γ) (g : α → β) (t : Term α) :
    termMap f (termMap g t) = termMap (fun x => f (g x)) t := by
  induction t <;> simp [termMap, *]

/-- Mapping the identity re-tagging changes nothing. -/
theorem termMap_id {α : Type} (t : Term α) : termMap (fun x => x) t = t := by
  induction t <;> simp [termMap, *]

/-- Comparison of two named-index trees up to textual labels: same variant
shape and equal positional index at every Var and every Lambda binder, equal
payloads on the binder-free leaves. -/
def eqShapeIdx : Term NamedDeBruijn → Term NamedDeBruijn → Bool
  | .Var a, .Var b => decide (a.index = b.index)
  | .Delay a, .Delay b => eqShapeIdx a b
  | .Lambda p a, .Lambda q b => decide (p.index = q.index) && eqShapeIdx a b
  | .Apply f a, .Apply g b => eqShapeIdx f g && eqShapeIdx a b
  | .Constant c, .Constant d => decide (c = d)
  | .Force a, .Force b => eqShapeIdx a b
  | .Error, .Error => true
  | .Builtin a, .Builtin b => decide (a = b)
  | _, _ => false

/-- Every tree is eqShapeIdx-equal to its image under a re-tagging that
keeps the index. -/
theorem eqShapeIdx_termMap_keep_index (t : Term NamedDeBruijn) :
    eqShapeIdx t (termMap (fun n => { text := "i", index := n.index }) t) = true := by
  induction t <;> simp [termMap, eqShapeIdx, *]

/-- C8: converting a named-index tree to index-only and back always
succeeds (both directions are total re-taggings) and returns a tree with
the same variant shape and the same positional index at every node; only
the textual labels are replaced, by the placeholder "i". -/
theorem named_index_only_roundtrip :
    ∀ t : Term NamedDeBruijn,
      termDebruijnToNamedDebruijn (termNamedDebruijnToDebruijn t)
        = termMap (fun n => { text := "i", index := n.index }) t ∧
      eqShapeIdx t (termDebruijnToNamedDebruijn (termNamedDebruijnToDebruijn t)) = true := by
  intro t
  have h : termDebruijnToNamedDebruijn (termNamedDebruijnToDebruijn t)
      = termMap (fun n => { text := "i", index := n.index }) t := by
    simp [termDebruijnToNamedDebruijn, termNamedDebruijnToDebruijn, termMap_termMap]
    rfl
  exact ⟨h, h ▸ eqShapeIdx_termMap_keep_index t⟩

/-- C9: the Fake-named-index and Named-index tree conversions are mutual
inverses, preserving both index and text exactly. -/
theorem fake_named_roundtrip :
    ∀ (t : Term NamedDeBruijn) (u : Term FakeNamedDeBruijn),
      termFakeToNamedDebruijn (termNamedDebruijnToFake t) = t ∧
      termNamedDebruijnToFake (termFakeToNamedDebruijn u) = u := by
  intro t u
  constructor
  · rw [termFakeToNamedDebruijn, termNamedDebruijnToFake, termMap_termMap]
    exact termMap_id t
  · rw [termNamedDebruijnToFake, termFakeToNamedDebruijn, termMap_termMap]
    exact termMap_id u

/-- Check that a predicate holds of the textual label carried by every Var
and every Lambda binder of a named-index tree. -/
def allTexts (p : String → Bool) : Term NamedDeBruijn → Bool
  | .Var n => p n.text
  | .Delay t => allTexts p t
  | .Lambda q b => p q.text && allTexts p b
  | .Apply f a => allTexts p f && allTexts p a
  | .Constant _ => true
  | .Force t => allTexts p t
  | .Error => true
  | .Builtin _ => true

/-- Helper for the placeholder-text property: every label in the image of
the index-only-to-named re-tagging is "i". -/
theorem allTexts_map_placeholder (t : Term DeBruijn) :
    allTexts (fun s => decide (s = "i")) (termMap DeBruijn.toNamedDeBruijn t) = true := by
  induction t <;> simp [termMap, allTexts, DeBruijn.toNamedDeBruijn, *]

/-- C10: whenever a textual label is fabricated from a bare positional
index - by the per-node conversions of an index into the named or
fake-named form, and hence at every Var and binder produced by the
index-only-to-named tree conversion - the fabricated text is exactly "i",
regardless of the index value. -/
theorem fabricated_text_is_i :
    (∀ d : DeBruijn, DeBruijn.toNamedDeBruijn d = { text := "i", index := d }) ∧
    (∀ d : DeBruijn, DeBruijn.toFakeNamedDeBruijn d = ⟨{ text := "i", index := d }⟩) ∧
    (∀ t : Term DeBruijn,
      allTexts (fun s => decide (s = "i")) (termDebruijnToNamedDebruijn t) = true) :=
  ⟨fun _ => rfl, fun _ => rfl, fun t => allTexts_map_placeholder t⟩


/-! ## Scope-aware conversions: Name to index (claims C1 and C3) -/

/-- A found first index is within the list. -/
theorem firstIdx_lt_length {α : Type} [DecidableEq α] {x : α} {l : List α} {j : Nat}
    (h : firstIdx x l = some j) : j < l.length := by
  induction l generalizing j with
  | nil => simp [firstIdx] at h
  | cons y ys ih =>
    by_cases hy : y = x
    · simp [firstIdx, hy] at h
      subst h
      simp
    · simp [firstIdx, hy] at h
      obtain ⟨k, hk, hkj⟩ := h
      have := ih hk
      simp
      omega

/-- In a list without duplicates, the first occurrence of the element at
position j is position j itself. -/
theorem firstIdx_getElem {α : Type} [DecidableEq α] {l : List α} (hl : l.Nodup)
    (j : Nat) (hj : j < l.length) : firstIdx l[j] l = some j := by
  induction l generalizing j with
  | nil => simp at hj
  | cons y ys ih =>
    rw [List.nodup_cons] at hl
    cases j with
    | zero => simp [firstIdx]
    | succ k =>
      have hk : k < ys.length := by simpa using hj
      have hy : y ≠ ys[k] := by
        intro h
        exact hl.1 (h ▸ List.getElem_mem hk)
      simp [firstIdx, hy, ih hl.2 k hk]

/-- A chain of Lambdas around a body, the head of the list being the
innermost binder. -/
def lamChainIn : List Name → Term Name → Term Name
  | [], t => t
  | p :: ps, t => lamChainIn ps (.Lambda p t)

/-- The named-index image of the same chain of Lambdas: each binder keeps
its text and is tagged with the reserved index 0. -/
def lamChainInD : List Name → Term NamedDeBruijn → Term NamedDeBruijn
  | [], t => t
  | p :: ps, t => lamChainInD ps (.Lambda { text := p.text, index := ⟨0⟩ } t)

/-- Converting under a chain of binders is converting the body under the
correspondingly extended scope stack. -/
theorem nameToNamedDebruijnGo_lamChainIn (ps : List Name) (s : List Unique) (t : Term Name) :
    nameToNamedDebruijnGo s (lamChainIn ps t)
      = (nameToNamedDebruijnGo (ps.map Name.unique ++ s) t).map (lamChainInD ps) := by
  induction ps generalizing s t with
  | nil =>
    cases h : nameToNamedDebruijnGo s t <;>
      simp [lamChainIn, lamChainInD, Except.map, h]
  | cons p ps ih =>
    have step : lamChainIn (p :: ps) t = lamChainIn ps (.Lambda p t) := rfl
    rw [step, ih]
    cases h : nameToNamedDebruijnGo (p.unique :: (ps.map Name.unique ++ s)) t <;>
      simp [nameToNamedDebruijnGo, Except.map, lamChainInD, h]

/-- C1: the term Lambda(x, Var(x)) converts to Lambda(NamedIndex(1)); the
term Lambda(x, Lambda(y, Var(x))) converts to Lambda(Lambda(index 2)); and
in general, for a Var under a chain of binders with pairwise distinct
Uniques referring to the binder at 0-based position j from the innermost,
conversion succeeds and resolves the Var to positional index j + 1, the
1-based distance from the innermost enclosing binder. -/
theorem name_to_index_distance :
    termNameToNamedDebruijn
        (.Lambda { text := "x", unique := ⟨0⟩ } (.Var { text := "x", unique := ⟨0⟩ }))
      = .ok (.Lambda { text := "x", index := ⟨0⟩ } (.Var { text := "x", index := ⟨1⟩ })) ∧
    termNameToNamedDebruijn
        (.Lambda { text := "x", unique := ⟨0⟩ }
          (.Lambda { text := "y", unique := ⟨1⟩ } (.Var { text := "x", unique := ⟨0⟩ })))
      = .ok (.Lambda { text := "x", index := ⟨0⟩ }
          (.Lambda { text := "y", index := ⟨0⟩ } (.Var { text := "x", index := ⟨2⟩ }))) ∧
    ∀ (ps : List Name) (j : Nat) (hj : j < ps.length),
      (ps.map Name.unique).Nodup →
      termNameToNamedDebruijn (lamChainIn ps (.Var ps[j]))
        = .ok (lamChainInD ps (.Var { text := ps[j].text, index := ⟨j + 1⟩ })) := by
  refine ⟨rfl, rfl, ?_⟩
  intro ps j hj hnd
  rw [termNameToNamedDebruijn, nameToNamedDebruijnGo_lamChainIn]
  have hj2 : j < (ps.map Name.unique).length := by simpa using hj
  have hfi : firstIdx ps[j].unique (ps.map Name.unique) = some j := by
    have := firstIdx_getElem hnd j hj2
    simpa using this
  simp [nameToNamedDebruijnGo, hfi, Except.map]

/-- Witness for C1: the general distance clause at the concrete chain of
the second example. -/
theorem name_to_index_distance_witness :
    termNameToNamedDebruijn
      (lamChainIn [{ text := "y", unique := ⟨1⟩ }, { text := "x", unique := ⟨0⟩ }]
        (.Var { text := "x", unique := ⟨0⟩ }))
      = .ok (lamChainInD [{ text := "y", unique := ⟨1⟩ }, { text := "x", unique := ⟨0⟩ }]
        (.Var { text := "x", index := ⟨2⟩ })) :=
  name_to_index_distance.2.2
    [{ text := "y", unique := ⟨1⟩ }, { text := "x", unique := ⟨0⟩ }] 1
    (by decide) (by decide)

/-- Whether every Var of a Name-form term resolves against the scope stack
of Uniques of its enclosing Lambdas. -/
def allVarsBound (s : List Unique) : Term Name → Bool
  | .Var n => (firstIdx n.unique s).isSome
  | .Delay t => allVarsBound s t
  | .Lambda p b => allVarsBound (p.unique :: s) b
  | .Apply f a => allVarsBound s f && allVarsBound s a
  | .Constant _ => true
  | .Force t => allVarsBound s t
  | .Error => true
  | .Builtin _ => true

/-- The first (depth-first, left-to-right) Var of a Name-form term whose
Unique is not introduced by any enclosing Lambda nor by the ambient stack. -/
def firstUnbound (s : List Unique) : Term Name → Option Name
  | .Var n =>
    match firstIdx n.unique s with
    | some _ => none
    | none => some n
  | .Delay t => firstUnbound s t
  | .Lambda p b => firstUnbound (p.unique :: s) b
  | .Apply f a =>
    match firstUnbound s f with
    | some n => some n
    | none => firstUnbound s a
  | .Constant _ => none
  | .Force t => firstUnbound s t
  | .Error => none
  | .Builtin _ => none

/-- The DFS-first unbound detector agrees with the all-bound predicate. -/
theorem firstUnbound_none_iff (t : Term Name) :
    ∀ s : List Unique, firstUnbound s t = none ↔ allVarsBound s t = true := by
  induction t with
  | Var n =>
    intro s
    cases h : firstIdx n.unique s <;> simp [firstUnbound, allVarsBound, h]
  | Delay t ih => intro s; simp [firstUnbound, allVarsBound, ih]
  | Lambda p b ih => intro s; simp [firstUnbound, allVarsBound, ih]
  | Apply f a ihf iha =>
    intro s
    cases h : firstUnbound s f with
    | none => simp [firstUnbound, allVarsBound, h, ← ihf, iha]
    | some n =>
      have : allVarsBound s f = false := by
        rcases hb : allVarsBound s f with _ | _
        · rfl
        · rw [← ihf s] at hb; simp [hb] at h
      simp [firstUnbound, allVarsBound, h, this]
  | Constant c => intro s; simp [firstUnbound, allVarsBound]
  | Force t ih => intro s; simp [firstUnbound, allVarsBound, ih]
  | Error => intro s; simp [firstUnbound, allVarsBound]
  | Builtin b => intro s; simp [firstUnbound, allVarsBound]

/-- Success and failure of the Name to named-index conversion, against the
DFS-first unbound detector. -/
theorem nameToNamedDebruijnGo_spec (t : Term Name) :
    ∀ s : List Unique,
      match firstUnbound s t with
      | none => ∃ u, nameToNamedDebruijnGo s t = .ok u
      | some n => nameToNamedDebruijnGo s t = .error (.FreeUnique n) := by
  induction t with
  | Var n =>
    intro s
    cases h : firstIdx n.unique s <;> simp [firstUnbound, nameToNamedDebruijnGo, h]
  | Delay t ih =>
    intro s
    have := ih s
    cases h : firstUnbound s t <;> simp [h] at this <;>
      simp [firstUnbound, h]
    · obtain ⟨u, hu⟩ := this
      exact ⟨.Delay u, by simp [nameToNamedDebruijnGo, hu]⟩
    · simp [nameToNamedDebruijnGo, this]
  | Lambda p b ih =>
    intro s
    have := ih (p.unique :: s)
    cases h : firstUnbound (p.unique :: s) b <;> simp [h] at this <;>
      simp [firstUnbound, h]
    · obtain ⟨u, hu⟩ := this
      exact ⟨.Lambda { text := p.text, index := ⟨0⟩ } u, by simp [nameToNamedDebruijnGo, hu]⟩
    · simp [nameToNamedDebruijnGo, this]
  | Apply f a ihf iha =>
    intro s
    have hf := ihf s
    have ha := iha s
    cases h1 : firstUnbound s f <;> simp [h1] at hf
    · cases h2 : firstUnbound s a <;> simp [h2] at ha <;>
        obtain ⟨uf, huf⟩ := hf <;> simp [firstUnbound, h1, h2]
      · obtain ⟨ua, hua⟩ := ha
        exact ⟨.Apply uf ua, by simp [nameToNamedDebruijnGo, huf, hua]⟩
      · simp [nameToNamedDebruijnGo, huf, ha]
    · simp [firstUnbound, h1, nameToNamedDebruijnGo, hf]
  | Constant c => intro s; exact ⟨.Constant c, rfl⟩
  | Force t ih =>
    intro s
    have := ih s
    cases h : firstUnbound s t <;> simp [h] at this <;>
      simp [firstUnbound, h]
    · obtain ⟨u, hu⟩ := this
      exact ⟨.Force u, by simp [nameToNamedDebruijnGo, hu]⟩
    · simp [nameToNamedDebruijnGo, this]
  | Error => intro s; exact ⟨.Error, rfl⟩
  | Builtin b => intro s; exact ⟨.Builtin b, rfl⟩

/-- Success and failure of the Name to index-only conversion, against the
DFS-first unbound detector. -/
theorem nameToDebruijnGo_spec (t : Term Name) :
    ∀ s : List Unique,
      match firstUnbound s t with
      | none => ∃ u, nameToDebruijnGo s t = .ok u
      | some n => nameToDebruijnGo s t = .error (.FreeUnique n) := by
  induction t with
  | Var n =>
    intro s
    cases h : firstIdx n.unique s <;> simp [firstUnbound, nameToDebruijnGo, h]
  | Delay t ih =>
    intro s
    have := ih s
    cases h : firstUnbound s t <;> simp [h] at this <;>
      simp [firstUnbound, h]
    · obtain ⟨u, hu⟩ := this
      exact ⟨.Delay u, by simp [nameToDebruijnGo, hu]⟩
    · simp [nameToDebruijnGo, this]
  | Lambda p b ih =>
    intro s
    have := ih (p.unique :: s)
    cases h : firstUnbound (p.unique :: s) b <;> simp [h] at this <;>
      simp [firstUnbound, h]
    · obtain ⟨u, hu⟩ := this
      exact ⟨.Lambda ⟨0⟩ u, by simp [nameToDebruijnGo, hu]⟩
    · simp [nameToDebruijnGo, this]
  | Apply f a ihf iha =>
    intro s
    have hf := ihf s
    have ha := iha s
    cases h1 : firstUnbound s f <;> simp [h1] at hf
    · cases h2 : firstUnbound s a <;> simp [h2] at ha <;>
        obtain ⟨uf, huf⟩ := hf <;> simp [firstUnbound, h1, h2]
      · obtain ⟨ua, hua⟩ := ha
        exact ⟨.Apply uf ua, by simp [nameToDebruijnGo, huf, hua]⟩
      · simp [nameToDebruijnGo, huf, ha]
    · simp [firstUnbound, h1, nameToDebruijnGo, hf]
  | Constant c => intro s; exact ⟨.Constant c, rfl⟩
  | Force t ih =>
    intro s
    have := ih s
    cases h : firstUnbound s t <;> simp [h] at this <;>
      simp [firstUnbound, h]
    · obtain ⟨u, hu⟩ := this
      exact ⟨.Force u, by simp [nameToDebruijnGo, hu]⟩
    · simp [nameToDebruijnGo, this]
  | Error => intro s; exact ⟨.Error, rfl⟩
  | Builtin b => intro s; exact ⟨.Builtin b, rfl⟩

/-- C3: both Name-to-index conversions fail exactly when the term contains
a Var whose Unique is not introduced by any enclosing Lambda; the failure
is the unbound-variable error carrying that Var Name (its text and Unique);
no other node shape can cause failure. -/
theorem name_to_index_unbound_err (t : Term Name) :
    ((∃ e, termNameToNamedDebruijn t = .error e) ↔ allVarsBound [] t = false) ∧
    ((∃ e, termNameToDebruijn t = .error e) ↔ allVarsBound [] t = false) ∧
    (∀ n, firstUnbound [] t = some n →
      termNameToNamedDebruijn t = .error (.FreeUnique n) ∧
      termNameToDebruijn t = .error (.FreeUnique n)) := by
  have h1 := nameToNamedDebruijnGo_spec t []
  have h2 := nameToDebruijnGo_spec t []
  have hiff := firstUnbound_none_iff t []
  refine ⟨?_, ?_, ?_⟩
  · cases h : firstUnbound [] t with
    | none =>
      simp [h] at h1
      obtain ⟨u, hu⟩ := h1
      have htrue := (firstUnbound_none_iff t []).mp h
      simp [termNameToNamedDebruijn, hu, htrue]
    | some n =>
      simp [h] at h1
      have hb : allVarsBound [] t = false := by
        cases hb2 : allVarsBound [] t
        · rfl
        · have hnone := hiff.mpr hb2
          rw [h] at hnone
          exact Option.noConfusion hnone
      simp [hb]
      exact ⟨.FreeUnique n, by simp [termNameToNamedDebruijn, h1]⟩
  · cases h : firstUnbound [] t with
    | none =>
      simp [h] at h2
      obtain ⟨u, hu⟩ := h2
      have htrue := (firstUnbound_none_iff t []).mp h
      simp [termNameToDebruijn, hu, htrue]
    | some n =>
      simp [h] at h2
      have hb : allVarsBound [] t = false := by
        cases hb2 : allVarsBound [] t
        · rfl
        · have hnone := hiff.mpr hb2
          rw [h] at hnone
          exact Option.noConfusion hnone
      simp [hb]
      exact ⟨.FreeUnique n, by simp [termNameToDebruijn, h2]⟩
  · intro n hn
    rw [hn] at h1 h2
    exact ⟨h1, h2⟩

/-- Witness for C3: a single free Var fails both conversions with the error
carrying its text and Unique. -/
theorem name_to_index_unbound_err_witness :
    termNameToNamedDebruijn (.Var { text := "x", unique := ⟨0⟩ })
      = .error (.FreeUnique { text := "x", unique := ⟨0⟩ }) ∧
    termNameToDebruijn (.Var { text := "x", unique := ⟨0⟩ })
      = .error (.FreeUnique { text := "x", unique := ⟨0⟩ }) :=
  (name_to_index_unbound_err (.Var { text := "x", unique := ⟨0⟩ })).2.2
    { text := "x", unique := ⟨0⟩ } (by decide)


/-! ## Scope-aware conversions: index to Name (claim C4) -/

/-- The DFS-first Var of an index-only term whose positional index i fails
1 <= i <= d plus the number of Lambdas between the root and that Var. -/
def firstBadIdxD (d : Nat) : Term DeBruijn → Option DeBruijn
  | .Var i => if 1 ≤ i.inner ∧ i.inner ≤ d then none else some i
  | .Delay t => firstBadIdxD d t
  | .Lambda _ b => firstBadIdxD (d + 1) b
  | .Apply f a =>
    match firstBadIdxD d f with
    | some i => some i
    | none => firstBadIdxD d a
  | .Constant _ => none
  | .Force t => firstBadIdxD d t
  | .Error => none
  | .Builtin _ => none

/-- Same detector for the named-index form, reporting the offending index. -/
def firstBadIdxN (d : Nat) : Term NamedDeBruijn → Option DeBruijn
  | .Var n => if 1 ≤ n.index.inner ∧ n.index.inner ≤ d then none else some n.index
  | .Delay t => firstBadIdxN d t
  | .Lambda _ b => firstBadIdxN (d + 1) b
  | .Apply f a =>
    match firstBadIdxN d f with
    | some i => some i
    | none => firstBadIdxN d a
  | .Constant _ => none
  | .Force t => firstBadIdxN d t
  | .Error => none
  | .Builtin _ => none

/-- Success and failure of the index-only to Name conversion, against the
index-bounds detector. -/
theorem debruijnToNameGo_spec (t : Term DeBruijn) :
    ∀ (s : List Name) (fresh : Int),
      match firstBadIdxD s.length t with
      | none => ∃ r, debruijnToNameGo fresh s t = .ok r
      | some i => debruijnToNameGo fresh s t = .error (.FreeIndex i) := by
  induction t with
  | Var i =>
    intro s fresh
    by_cases hgood : 1 ≤ i.inner ∧ i.inner ≤ s.length
    · have h0 : ¬ i.inner = 0 := by omega
      have hlt : i.inner - 1 < s.length := by omega
      simp [firstBadIdxD, hgood]
      exact ⟨.Var s[i.inner - 1], fresh,
        by simp [debruijnToNameGo, h0, List.getElem?_eq_getElem hlt]⟩
    · simp [firstBadIdxD, hgood]
      by_cases h0 : i.inner = 0
      · simp [debruijnToNameGo, h0]
      · have hn : s[i.inner - 1]? = none := by
          rw [List.getElem?_eq_none_iff]
          omega
        simp [debruijnToNameGo, h0, hn]
  | Delay t ih =>
    intro s fresh
    have := ih s fresh
    cases h : firstBadIdxD s.length t <;> simp [h] at this <;> simp [firstBadIdxD, h]
    · obtain ⟨t2, fr, hr⟩ := this
      exact ⟨.Delay t2, fr, by simp [debruijnToNameGo, hr]⟩
    · simp [debruijnToNameGo, this]
  | Lambda p b ih =>
    intro s fresh
    have := ih ({ text := "i", unique := ⟨fresh⟩ } :: s) (fresh + 1)
    cases h : firstBadIdxD (s.length + 1) b <;>
      simp [List.length_cons, h] at this <;> simp [firstBadIdxD, h]
    · obtain ⟨b2, fr, hr⟩ := this
      exact ⟨.Lambda { text := "i", unique := ⟨fresh⟩ } b2, fr,
        by simp [debruijnToNameGo, hr]⟩
    · simp [debruijnToNameGo, this]
  | Apply f a ihf iha =>
    intro s fresh
    have hf := ihf s fresh
    cases h1 : firstBadIdxD s.length f <;> simp [h1] at hf
    · obtain ⟨f2, fr1, hrf⟩ := hf
      have ha := iha s fr1
      cases h2 : firstBadIdxD s.length a <;> simp [h2] at ha <;> simp [firstBadIdxD, h1, h2]
      · obtain ⟨a2, fr2, hra⟩ := ha
        exact ⟨.Apply f2 a2, fr2, by simp [debruijnToNameGo, hrf, hra]⟩
      · simp [debruijnToNameGo, hrf, ha]
    · simp [firstBadIdxD, h1, debruijnToNameGo, hf]
  | Constant c => intro s fresh; exact ⟨(.Constant c, fresh), rfl⟩
  | Force t ih =>
    intro s fresh
    have := ih s fresh
    cases h : firstBadIdxD s.length t <;> simp [h] at this <;> simp [firstBadIdxD, h]
    · obtain ⟨t2, fr, hr⟩ := this
      exact ⟨.Force t2, fr, by simp [debruijnToNameGo, hr]⟩
    · simp [debruijnToNameGo, this]
  | Error => intro s fresh; exact ⟨(.Error, fresh), rfl⟩
  | Builtin b => intro s fresh; exact ⟨(.Builtin b, fresh), rfl⟩

/-- Success and failure of the named-index to Name conversion, against the
index-bounds detector. -/
theorem namedDebruijnToNameGo_spec (t : Term NamedDeBruijn) :
    ∀ (s : List Name) (fresh : Int),
      match firstBadIdxN s.length t with
      | none => ∃ r, namedDebruijnToNameGo fresh s t = .ok r
      | some i => namedDebruijnToNameGo fresh s t = .error (.FreeIndex i) := by
  induction t with
  | Var n =>
    intro s fresh
    by_cases hgood : 1 ≤ n.index.inner ∧ n.index.inner ≤ s.length
    · have h0 : ¬ n.index.inner = 0 := by omega
      have hlt : n.index.inner - 1 < s.length := by omega
      simp [firstBadIdxN, hgood]
      exact ⟨.Var s[n.index.inner - 1], fresh,
        by simp [namedDebruijnToNameGo, h0, List.getElem?_eq_getElem hlt]⟩
    · simp [firstBadIdxN, hgood]
      by_cases h0 : n.index.inner = 0
      · simp [namedDebruijnToNameGo, h0]
      · have hn : s[n.index.inner - 1]? = none := by
          rw [List.getElem?_eq_none_iff]
          omega
        simp [namedDebruijnToNameGo, h0, hn]
  | Delay t ih =>
    intro s fresh
    have := ih s fresh
    cases h : firstBadIdxN s.length t <;> simp [h] at this <;> simp [firstBadIdxN, h]
    · obtain ⟨t2, fr, hr⟩ := this
      exact ⟨.Delay t2, fr, by simp [namedDebruijnToNameGo, hr]⟩
    · simp [namedDebruijnToNameGo, this]
  | Lambda p b ih =>
    intro s fresh
    have := ih ({ text := p.text, unique := ⟨fresh⟩ } :: s) (fresh + 1)
    cases h : firstBadIdxN (s.length + 1) b <;>
      simp [List.length_cons, h] at this <;> simp [firstBadIdxN, h]
    · obtain ⟨b2, fr, hr⟩ := this
      exact ⟨.Lambda { text := p.text, unique := ⟨fresh⟩ } b2, fr,
        by simp [namedDebruijnToNameGo, hr]⟩
    · simp [namedDebruijnToNameGo, this]
  | Apply f a ihf iha =>
    intro s fresh
    have hf := ihf s fresh
    cases h1 : firstBadIdxN s.length f <;> simp [h1] at hf
    · obtain ⟨f2, fr1, hrf⟩ := hf
      have ha := iha s fr1
      cases h2 : firstBadIdxN s.length a <;> simp [h2] at ha <;> simp [firstBadIdxN, h1, h2]
      · obtain ⟨a2, fr2, hra⟩ := ha
        exact ⟨.Apply f2 a2, fr2, by simp [namedDebruijnToNameGo, hrf, hra]⟩
      · simp [namedDebruijnToNameGo, hrf, ha]
    · simp [firstBadIdxN, h1, namedDebruijnToNameGo, hf]
  | Constant c => intro s fresh; exact ⟨(.Constant c, fresh), rfl⟩
  | Force t ih =>
    intro s fresh
    have := ih s fresh
    cases h : firstBadIdxN s.length t <;> simp [h] at this <;> simp [firstBadIdxN, h]
    · obtain ⟨t2, fr, hr⟩ := this
      exact ⟨.Force t2, fr, by simp [namedDebruijnToNameGo, hr]⟩
    · simp [namedDebruijnToNameGo, this]
  | Error => intro s fresh; exact ⟨(.Error, fresh), rfl⟩
  | Builtin b => intro s fresh; exact ⟨(.Builtin b, fresh), rfl⟩

/-- C4: an index-to-Name conversion succeeds exactly when every Var index i
satisfies 1 <= i <= the number of enclosing Lambdas (plus the ambient
stack); a Var within bounds reads the referenced binder Name off the scope
stack at depth i; out of bounds, conversion fails with the unbound-variable
error carrying the offending positional index, as in the concrete example
of Var index 5 under only 2 Lambdas. -/
theorem index_to_name_scope :
    (∀ (t : Term DeBruijn) (s : List Name) (fresh : Int),
      match firstBadIdxD s.length t with
      | none => ∃ r, debruijnToNameGo fresh s t = .ok r
      | some i => debruijnToNameGo fresh s t = .error (.FreeIndex i)) ∧
    (∀ (t : Term NamedDeBruijn) (s : List Name) (fresh : Int),
      match firstBadIdxN s.length t with
      | none => ∃ r, namedDebruijnToNameGo fresh s t = .ok r
      | some i => namedDebruijnToNameGo fresh s t = .error (.FreeIndex i)) ∧
    (∀ (s : List Name) (fresh : Int) (nd : NamedDeBruijn)
      (h1 : 1 ≤ nd.index.inner) (h2 : nd.index.inner ≤ s.length),
      namedDebruijnToNameGo fresh s (.Var nd) = .ok (.Var s[nd.index.inner - 1], fresh)) ∧
    termDebruijnToName (.Lambda ⟨0⟩ (.Lambda ⟨0⟩ (.Var ⟨5⟩))) = .error (.FreeIndex ⟨5⟩) := by
  refine ⟨debruijnToNameGo_spec, namedDebruijnToNameGo_spec, ?_, rfl⟩
  intro s fresh nd h1 h2
  have h0 : ¬ nd.index.inner = 0 := by omega
  have hlt : nd.index.inner - 1 < s.length := by omega
  simp [namedDebruijnToNameGo, h0, List.getElem?_eq_getElem hlt]

/-- Witness for C4: reading a Var of index 1 off a singleton scope stack. -/
theorem index_to_name_scope_witness :
    namedDebruijnToNameGo 0 [{ text := "a", unique := ⟨7⟩ }]
        (.Var { text := "z", index := ⟨1⟩ })
      = .ok (.Var { text := "a", unique := ⟨7⟩ }, 0) :=
  index_to_name_scope.2.2.1 [{ text := "a", unique := ⟨7⟩ }] 0
    { text := "z", index := ⟨1⟩ } (by decide) (by decide)


/-! ## Name round trip up to alpha-equivalence (claim C2) -/

/-- Alpha-equivalence of two Name-form terms relative to their stacks of
enclosing binder Uniques (innermost first): same variant shape everywhere,
bound variables must point at the same stack position, free variables must
carry the same Unique, and the binder-free payloads must agree. -/
def alphaEq : List Unique → List Unique → Term Name → Term Name → Bool
  | s1, s2, .Var n1, .Var n2 =>
    (match firstIdx n1.unique s1, firstIdx n2.unique s2 with
     | some i, some j => decide (i = j)
     | none, none => decide (n1.unique = n2.unique)
     | _, _ => false)
  | s1, s2, .Delay a, .Delay b => alphaEq s1 s2 a b
  | s1, s2, .Lambda p a, .Lambda q b => alphaEq (p.unique :: s1) (q.unique :: s2) a b
  | s1, s2, .Apply f a, .Apply g b => alphaEq s1 s2 f g && alphaEq s1 s2 a b
  | _, _, .Constant c, .Constant d => decide (c = d)
  | s1, s2, .Force a, .Force b => alphaEq s1 s2 a b
  | _, _, .Error, .Error => true
  | _, _, .Builtin a, .Builtin b => decide (a = b)
  | _, _, _, _ => false

/-- Main invariant for the Name to index to Name round trip: under a
scope stack s1 in which every Var of t is bound, and a parallel stack s2 of
distinct binder Names all minted below the allocator counter, the forward
conversion succeeds, the backward conversion succeeds with a final counter
at least the initial one, and the result is alpha-equivalent to t. -/
theorem roundtrip_aux (t : Term Name) :
    ∀ (s1 : List Unique) (s2 : List Name) (fresh : Int),
      allVarsBound s1 t = true →
      s2.length = s1.length →
      (∀ nm ∈ s2, nm.unique.inner < fresh) →
      (s2.map Name.unique).Nodup →
      ∃ (u : Term NamedDeBruijn) (t2 : Term Name) (fresh2 : Int),
        nameToNamedDebruijnGo s1 t = .ok u ∧
        namedDebruijnToNameGo fresh s2 u = .ok (t2, fresh2) ∧
        fresh ≤ fresh2 ∧
        alphaEq s1 (s2.map Name.unique) t t2 = true := by
  induction t with
  | Var n =>
    intro s1 s2 fresh hb hlen hlt hnd
    simp only [allVarsBound] at hb
    obtain ⟨j, hj⟩ := Option.isSome_iff_exists.mp hb
    have hjl : j < s1.length := firstIdx_lt_length hj
    have hjl2 : j < s2.length := by omega
    refine ⟨.Var { text := n.text, index := ⟨j + 1⟩ }, .Var s2[j], fresh,
      ?_, ?_, le_refl fresh, ?_⟩
    · simp [nameToNamedDebruijnGo, hj]
    · simp [namedDebruijnToNameGo, List.getElem?_eq_getElem hjl2]
    · have hfi2 : firstIdx s2[j].unique (s2.map Name.unique) = some j := by
        have := firstIdx_getElem hnd j (by simpa using hjl2)
        simpa using this
      simp [alphaEq, hj, hfi2]
  | Delay t ih =>
    intro s1 s2 fresh hb hlen hlt hnd
    simp only [allVarsBound] at hb
    obtain ⟨u, t2, fresh2, h1, h2, hle, ha⟩ := ih s1 s2 fresh hb hlen hlt hnd
    refine ⟨.Delay u, .Delay t2, fresh2, ?_, ?_, hle, ?_⟩
    · simp [nameToNamedDebruijnGo, h1]
    · simp [namedDebruijnToNameGo, h2]
    · simpa [alphaEq] using ha
  | Lambda p b ih =>
    intro s1 s2 fresh hb hlen hlt hnd
    simp only [allVarsBound] at hb
    have hlt2 : ∀ nm ∈ ({ text := p.text, unique := ⟨fresh⟩ } :: s2),
        nm.unique.inner < fresh + 1 := by
      intro nm hnm
      rcases List.mem_cons.mp hnm with h | h
      · subst h; simp
      · have := hlt nm h; omega
    have hnd2 : (({ text := p.text, unique := (⟨fresh⟩ : Unique) } :: s2).map Name.unique).Nodup := by
      simp only [List.map_cons, List.nodup_cons]
      refine ⟨?_, hnd⟩
      intro hmem
      simp only [List.mem_map] at hmem
      obtain ⟨nm, hnm, hu⟩ := hmem
      have h5 := hlt nm hnm
      rw [hu] at h5
      simp at h5
    obtain ⟨u, t2, fresh2, h1, h2, hle, ha⟩ :=
      ih (p.unique :: s1) ({ text := p.text, unique := ⟨fresh⟩ } :: s2) (fresh + 1)
        hb (by simp [hlen]) hlt2 hnd2
    refine ⟨.Lambda { text := p.text, index := ⟨0⟩ } u,
      .Lambda { text := p.text, unique := ⟨fresh⟩ } t2, fresh2, ?_, ?_, by omega, ?_⟩
    · simp [nameToNamedDebruijnGo, h1]
    · simp [namedDebruijnToNameGo, h2]
    · simpa [alphaEq] using ha
  | Apply f a ihf iha =>
    intro s1 s2 fresh hb hlen hlt hnd
    simp only [allVarsBound, Bool.and_eq_true] at hb
    obtain ⟨hbf, hba⟩ := hb
    obtain ⟨uf, f2, fr1, h1f, h2f, hlef, haf⟩ := ihf s1 s2 fresh hbf hlen hlt hnd
    have hlt1 : ∀ nm ∈ s2, nm.unique.inner < fr1 :=
      fun nm h => lt_of_lt_of_le (hlt nm h) hlef
    obtain ⟨ua, a2, fr2, h1a, h2a, hlea, haa⟩ := iha s1 s2 fr1 hba hlen hlt1 hnd
    refine ⟨.Apply uf ua, .Apply f2 a2, fr2, ?_, ?_, le_trans hlef hlea, ?_⟩
    · simp [nameToNamedDebruijnGo, h1f, h1a]
    · simp [namedDebruijnToNameGo, h2f, h2a]
    · simp [alphaEq, haf, haa]
  | Constant c =>
    intro s1 s2 fresh _ _ _ _
    exact ⟨.Constant c, .Constant c, fresh, rfl, rfl, le_refl fresh, by simp [alphaEq]⟩
  | Force t ih =>
    intro s1 s2 fresh hb hlen hlt hnd
    simp only [allVarsBound] at hb
    obtain ⟨u, t2, fresh2, h1, h2, hle, ha⟩ := ih s1 s2 fresh hb hlen hlt hnd
    refine ⟨.Force u, .Force t2, fresh2, ?_, ?_, hle, ?_⟩
    · simp [nameToNamedDebruijnGo, h1]
    · simp [namedDebruijnToNameGo, h2]
    · simpa [alphaEq] using ha
  | Error =>
    intro s1 s2 fresh _ _ _ _
    exact ⟨.Error, .Error, fresh, rfl, rfl, le_refl fresh, by simp [alphaEq]⟩
  | Builtin b =>
    intro s1 s2 fresh _ _ _ _
    exact ⟨.Builtin b, .Builtin b, fresh, rfl, rfl, le_refl fresh, by simp [alphaEq]⟩

/-- C2: for every Name-form tree all of whose Vars are bound by enclosing
Lambdas, converting to named-index form and back succeeds and yields a tree
alpha-equivalent to the original: same variant shape and binding structure,
while the Unique values may differ (the backward direction mints fresh
ones). -/
theorem name_roundtrip_alpha :
    ∀ t : Term Name, allVarsBound [] t = true →
      ∃ (u : Term NamedDeBruijn) (t2 : Term Name),
        termNameToNamedDebruijn t = .ok u ∧
        termNamedDebruijnToName u = .ok t2 ∧
        alphaEq [] [] t t2 = true := by
  intro t hb
  obtain ⟨u, t2, fresh2, h1, h2, _, ha⟩ :=
    roundtrip_aux t [] [] 0 hb rfl (by simp) (by simp)
  exact ⟨u, t2, by simp [termNameToNamedDebruijn, h1],
    by simp [termNamedDebruijnToName, h2], by simpa using ha⟩

/-- Witness for C2: the identity-function term round-trips to an
alpha-equivalent tree. -/
theorem name_roundtrip_alpha_witness :
    ∃ (u : Term NamedDeBruijn) (t2 : Term Name),
      termNameToNamedDebruijn
          (.Lambda { text := "x", unique := ⟨5⟩ } (.Var { text := "x", unique := ⟨5⟩ }))
        = .ok u ∧
      termNamedDebruijnToName u = .ok t2 ∧
      alphaEq [] []
          (.Lambda { text := "x", unique := ⟨5⟩ } (.Var { text := "x", unique := ⟨5⟩ }))
          t2 = true :=
  name_roundtrip_alpha
    (.Lambda { text := "x", unique := ⟨5⟩ } (.Var { text := "x", unique := ⟨5⟩ }))
    (by decide)


end Uplc
